import Mathlib

/-!
# Verification of the xiangxinai-go asynchronous dispatch engine

Shallow embedding of the Go SDK `xiangxinai` (files `async_client.go`,
`errors.go`, `types.go` and the client implementation file):

* the error taxonomy of `errors.go`;
* the retry loop `makeRequestWithData`, `calculateBackoff` and `sleep`;
* the empty-input fast paths `CheckPrompt` / `CheckConversationWithModel`
  and `createSafeResponse`;
* the batch collector `BatchCheckPromptsWithModel` /
  `BatchCheckConversationsWithModel`;
* a small-step operational model of the `AsyncClient` worker pool,
  submission, cancellation and `Close`.

Line numbers in comments refer to `async_client.go` and to the client
implementation file (its second, current copy of the `Client` type,
lines 559-1243).
-/

set_option autoImplicit false

namespace Xiangxinai

/-! ## Error taxonomy (errors.go)

Each Go error type carries a message (and possibly a wrapped cause,
which we fold into the message the way `Error()` renders it).
`contextCanceled` stands for the value of `ctx.Err()`
(`context.Canceled` / `context.DeadlineExceeded`). -/

inductive ClientError where
  | xiangxinAI (msg : String)
  | authentication (msg : String)
  | rateLimit (msg : String)
  | validation (msg : String)
  | network (msg : String)
  | server (msg : String)
  | contextCanceled
deriving DecidableEq, Repr

/-! ## Response data model (types.go) -/

structure ComplianceResult where
  riskLevel : String
  categories : List String
deriving DecidableEq, Repr

structure SecurityResult where
  riskLevel : String
  categories : List String
deriving DecidableEq, Repr

structure DataSecurityResult where
  riskLevel : String
  categories : List String
deriving DecidableEq, Repr

structure GuardrailResult where
  compliance : Option ComplianceResult
  security : Option SecurityResult
  data : Option DataSecurityResult
deriving DecidableEq, Repr

/-- GuardrailResponse of types.go. The JSON number field `Score *float64`
is modelled as an optional rational. -/
structure GuardrailResponse where
  id : String
  result : Option GuardrailResult
  overallRiskLevel : String
  suggestAction : String
  suggestAnswer : Option String
  score : Option Rat
deriving DecidableEq, Repr

/-! ## Retry loop (makeRequestWithData, lines 1132-1198)

The remote call performed at each loop iteration
(`c.client.R().SetContext(ctx).SetBody(requestData).Post(endpoint)`) is the
external executor.  One invocation yields one `AttemptOutcome`:

* `transportErr msg`: resty returned `err != nil`; the loop wraps it as
  `NewNetworkError("request failed", err)` whose `Error()` renders
  `"request failed: " ++ msg` (lines 1141-1148);
* `success parsed`: `resp.IsSuccess()`; `parsed = none` models a JSON
  unmarshal failure (lines 1150-1156);
* `httpStatus code detail body`: an error status; `detail` is the decoded
  `detail` field of the JSON body when present, `body` the raw body text
  (lines 1158-1194). -/

inductive AttemptOutcome where
  | transportErr (msg : String)
  | success (parsed : Option GuardrailResponse)
  | httpStatus (code : Nat) (detail : Option String) (body : String)
deriving DecidableEq, Repr

/-- calculateBackoff (lines 1230-1234): the Go code computes
`time.Duration(math.Pow(2, float64(attempt))) * time.Second + time.Second`,
i.e. `2^attempt + 1` seconds (`math.Pow(2, k)` is exact for every
`k < 63` relevant here).  We measure in whole seconds. -/
def calculateBackoff (attempt : Nat) : Nat :=
  2 ^ attempt + 1

instance {α β : Type} [DecidableEq α] [DecidableEq β] : DecidableEq (Except α β) :=
  fun x y =>
    match x, y with
    | .ok a, .ok b =>
      if h : a = b then isTrue (by rw [h]) else
        isFalse (by intro hc; injection hc; contradiction)
    | .ok _, .error _ => isFalse (by intro h; exact Except.noConfusion h)
    | .error _, .ok _ => isFalse (by intro h; exact Except.noConfusion h)
    | .error a, .error b =>
      if h : a = b then isTrue (by rw [h]) else
        isFalse (by intro hc; injection hc; contradiction)

/-- Trace of one run of makeRequestWithData: the returned value, the number
of executor invocations performed, and the scheduled backoff delays (in
seconds) passed to `sleep` between attempts, in order. -/
structure RunTrace where
  result : Except ClientError GuardrailResponse
  invocations : Nat
  backoffs : List Nat
deriving DecidableEq, Repr

/-- Error produced for one transient outcome by the classification
switch of makeRequestWithData (lines 1141-1147, 1172-1193). -/
def transientError : AttemptOutcome → ClientError
  | .transportErr msg => .network ("request failed: " ++ msg)
  | .success _ => .xiangxinAI ""
  | .httpStatus code detail body =>
    if code = 429 then .rateLimit "rate limit exceeded"
    else .xiangxinAI ("API request failed with status " ++ toString code ++ ": "
      ++ detail.getD body)

/-- Predicate: the outcome makes the loop retry (lines 1141-1147:
transport error; 1172-1178: status 429; 1180-1193: any other error
status).  Statuses 401 and 422 and a successful response never retry. -/
def isTransient : AttemptOutcome → Bool
  | .transportErr _ => true
  | .success _ => false
  | .httpStatus code _ _ => ¬(code = 401) ∧ ¬(code = 422)

/-- Terminal classification (lines 1160-1171): status 401 becomes
`NewAuthenticationError("invalid API key")`, status 422 becomes
`NewValidationError("validation error: " ++ detail)` where the detail
defaults to `"validation error"` when the body has no decodable
`detail` field. -/
def terminalResult : AttemptOutcome → Option ClientError
  | .httpStatus code detail _ =>
    if code = 401 then some (.authentication "invalid API key")
    else if code = 422 then
      some (.validation ("validation error: " ++ detail.getD "validation error"))
    else none
  | _ => none

/-- Loop body of makeRequestWithData (lines 1135-1195), fuelled.
`fuel` is maintained equal to `maxRetries + 1 - attempt`; the zero-fuel
branch corresponds to the `return nil, lastErr` after the loop
(line 1197), which is unreachable because every final iteration
(`attempt = maxRetries`) returns inside the loop. -/
def loopAux (maxRetries : Nat) (exec : Nat → AttemptOutcome) :
    Nat → Nat → Option ClientError → Nat → List Nat → RunTrace
  | _, 0, lastErr, invs, bks =>
    ⟨.error (lastErr.getD (.xiangxinAI "nil error")), invs, bks⟩
  | attempt, fuel + 1, _, invs, bks =>
    match exec attempt with
    | .transportErr msg =>
      let e : ClientError := .network ("request failed: " ++ msg)
      if attempt < maxRetries then
        loopAux maxRetries exec (attempt + 1) fuel (some e) (invs + 1)
          (bks ++ [calculateBackoff attempt])
      else ⟨.error e, invs + 1, bks⟩
    | .success (some r) => ⟨.ok r, invs + 1, bks⟩
    | .success none => ⟨.error (.xiangxinAI "failed to parse response"), invs + 1, bks⟩
    | .httpStatus code detail body =>
      if code = 401 then ⟨.error (.authentication "invalid API key"), invs + 1, bks⟩
      else if code = 422 then
        ⟨.error (.validation ("validation error: " ++ detail.getD "validation error")),
          invs + 1, bks⟩
      else if code = 429 then
        if attempt < maxRetries then
          loopAux maxRetries exec (attempt + 1) fuel
            (some (.rateLimit "rate limit exceeded")) (invs + 1)
            (bks ++ [calculateBackoff attempt])
        else ⟨.error (.rateLimit "rate limit exceeded"), invs + 1, bks⟩
      else
        let e : ClientError := .xiangxinAI ("API request failed with status "
          ++ toString code ++ ": " ++ detail.getD body)
        if attempt < maxRetries then
          loopAux maxRetries exec (attempt + 1) fuel (some e) (invs + 1)
            (bks ++ [calculateBackoff attempt])
        else ⟨.error e, invs + 1, bks⟩

/-- makeRequestWithData (lines 1132-1198) run against an executor oracle:
`exec k` is the outcome of the k-th remote invocation. -/
def makeRequestWithData (maxRetries : Nat) (exec : Nat → AttemptOutcome) : RunTrace :=
  loopAux maxRetries exec 0 (maxRetries + 1) none 0 []

/-! ### Context cancellation during the retry loop

sleep (lines 1237-1243) races `ctx.Done()` against `time.After(duration)`
and returns (with no value) as soon as either fires: a cancelled context
ends the wait immediately, but the caller `makeRequestWithData` does not
inspect the context after sleeping and simply continues the loop.  A
cancelled context makes every subsequent transport call fail fast, with
resty returning the context error, which line 1142 wraps as
`NewNetworkError("request failed", err)`; `context.Canceled` renders as
`"context canceled"`. -/

/-- Effective executor once the context is cancelled: `cancelFrom = some j`
means the context becomes done during the backoff wait that precedes
attempt `j`, so every attempt `k ≥ j` observes a dead context and fails in
transport. -/
def ctxExec (exec : Nat → AttemptOutcome) (cancelFrom : Option Nat)
    (k : Nat) : AttemptOutcome :=
  match cancelFrom with
  | none => exec k
  | some j => if j ≤ k then .transportErr "context canceled" else exec k

/-- makeRequestWithData under a context that is cancelled during the
backoff wait preceding attempt `j` (when `cancelFrom = some j`). -/
def makeRequestWithDataCtx (maxRetries : Nat) (exec : Nat → AttemptOutcome)
    (cancelFrom : Option Nat) : RunTrace :=
  makeRequestWithData maxRetries (ctxExec exec cancelFrom)

/-- Seconds actually waited for each scheduled backoff: sleep
(lines 1237-1243) ends immediately (modelled as 0) for the wait during
which the context is cancelled and for every later wait.  Backoff index
`k` is the wait between attempts `k` and `k + 1`. -/
def waitedBackoffs (cancelFrom : Option Nat) (bks : List Nat) : List Nat :=
  match cancelFrom with
  | none => bks
  | some j => bks.enum.map (fun p => if j ≤ p.1 + 1 then 0 else p.2)

/-! ## Empty-input fast paths of the synchronous client

CheckPrompt (lines 730-746), createSafeResponse (lines 670-687) and
CheckConversationWithModel (lines 780-838). -/

/-- Character set of Go's `unicode.IsSpace` (the Unicode White_Space
property), which `strings.TrimSpace` trims from both ends. -/
def goIsSpace (c : Char) : Bool :=
  c.val = 9 ∨ c.val = 10 ∨ c.val = 11 ∨ c.val = 12 ∨ c.val = 13 ∨ c.val = 32 ∨
  c.val = 0x85 ∨ c.val = 0xA0 ∨ c.val = 0x1680 ∨
  (0x2000 ≤ c.val ∧ c.val ≤ 0x200A) ∨
  c.val = 0x2028 ∨ c.val = 0x2029 ∨ c.val = 0x202F ∨ c.val = 0x205F ∨
  c.val = 0x3000

/-- Go's `strings.TrimSpace`: drop leading and trailing white space. -/
def goTrimSpace (s : String) : String :=
  ⟨((s.data.dropWhile goIsSpace).reverse.dropWhile goIsSpace).reverse⟩

/-- Message of types.go for the text client (the implementation file's
`Client` treats `Content` as a string: `strings.TrimSpace(msg.Content)`
at line 802). -/
structure Message where
  role : String
  content : String
deriving DecidableEq, Repr

/-- createSafeResponse (lines 670-687): the canned no-risk response
returned without any remote request. -/
def createSafeResponse : GuardrailResponse where
  id := "guardrails-safe-default"
  result := some
    { compliance := some { riskLevel := "no_risk", categories := [] }
      security := some { riskLevel := "no_risk", categories := [] }
      data := none }
  overallRiskLevel := "no_risk"
  suggestAction := "pass"
  suggestAnswer := none
  score := none

/-- Optional user id actually attached to a request: the Go functions take
a variadic `userID ...string` and use `userID[0]` only when present and
non-empty (lines 741-743, 830-835). -/
def effectiveUserID : List String → Option String
  | [] => none
  | u :: _ => if u = "" then none else some u

/-- Observable behaviour of CheckPrompt: either the safe default is
returned with a nil error and no remote request, or a remote request is
issued to the given endpoint with the given payload. -/
inductive PromptAction where
  | safe (resp : GuardrailResponse)
  | request (endpoint : String) (input : String) (userID : Option String)
deriving DecidableEq, Repr

/-- CheckPrompt (lines 730-746): an input whose trimmed form is empty
short-circuits to `createSafeResponse` with a nil error; otherwise the
trimmed input is posted to `/guardrails/input`. -/
def CheckPrompt (content : String) (userID : List String) : PromptAction :=
  if goTrimSpace content = "" then .safe createSafeResponse
  else .request "/guardrails/input" (goTrimSpace content) (effectiveUserID userID)

/-- Request payload of CheckConversationWithModel (lines 824-835). -/
structure GuardrailRequest where
  model : String
  messages : List Message
  extraUserID : Option String
deriving DecidableEq, Repr

/-- Observable behaviour of CheckConversationWithModel: a validation
error, the safe default with a nil error, or a remote request. -/
inductive ConvAction where
  | fail (e : ClientError)
  | safe (resp : GuardrailResponse)
  | request (req : GuardrailRequest)
deriving DecidableEq, Repr

/-- Validation loop of CheckConversationWithModel (lines 786-812): walks
the messages in order, failing on the first nil message, invalid role or
overlong content; returns the list of trimmed non-empty messages and the
flag `allEmpty` (true when every message's trimmed content is empty).
A nil `*Message` is modelled as `none`.  `len(msg.Content)` counts bytes
in Go, hence `utf8ByteSize`. -/
def validateLoop : List (Option Message) → Except ClientError (List Message × Bool)
  | [] => .ok ([], true)
  | none :: _ => .error (.validation "message cannot be nil")
  | some m :: rest =>
    if m.role ≠ "user" ∧ m.role ≠ "system" ∧ m.role ≠ "assistant" then
      .error (.validation "message role must be one of: user, system, assistant")
    else if 1000000 < m.content.utf8ByteSize then
      .error (.validation "content too long (max 1000000 characters)")
    else
      match validateLoop rest with
      | .error e => .error e
      | .ok (vs, allEmpty) =>
        if goTrimSpace m.content = "" then .ok (vs, allEmpty)
        else .ok (⟨m.role, goTrimSpace m.content⟩ :: vs, false)

/-- CheckConversationWithModel (lines 780-838): empty list fails; any
invalid message fails; if every message's trimmed content is empty (or no
validated message remains) the safe default is returned with a nil error;
otherwise a request with the validated messages is issued. -/
def CheckConversationWithModel (messages : List (Option Message)) (model : String)
    (userID : List String) : ConvAction :=
  if messages = [] then .fail (.validation "messages cannot be empty")
  else
    match validateLoop messages with
    | .error e => .fail e
    | .ok (validated, allEmpty) =>
      if allEmpty then .safe createSafeResponse
      else if validated = [] then .safe createSafeResponse
      else .request ⟨model, validated, effectiveUserID userID⟩

/-! ## AsyncResult and the batch collector (async_client.go)

AsyncResult (lines 9-12) is a struct with both a `Result` and an `Error`
field; the Go zero value has both unset. -/

structure ARes where
  result : Option GuardrailResponse
  error : Option ClientError
deriving DecidableEq, Repr

/-- Result sent on every channel when the client is closed
(`NewXiangxinAIError("async client is closed", nil)`, lines 110, 235,
321). -/
def closedResult : ARes := ⟨none, some (.xiangxinAI "async client is closed")⟩

/-- Result delivered when a waiting worker loses the slot race to context
cancellation (`AsyncResult{Error: ctx.Err()}`, lines 126, 259, 345);
`ctx.Err()` is modelled by `ClientError.contextCanceled`. -/
def cancelResult : ARes := ⟨none, some .contextCanceled⟩

/-- Index-addressed writes of the batch workers (lines 246-267): the
preallocated slice `results := make([]AsyncResult[...], M)` (Go zero
values) receives `results[index] = outcome index` once per worker, in an
arbitrary completion order.  `exec i` is the outcome of checking input
`i` (the value of `ac.client.CheckPromptWithModel(ctx, contents[i],
model)` packed into an AsyncResult). -/
def batchCollect (m : Nat) (exec : Nat → ARes) (order : List Nat) : List ARes :=
  order.foldl (fun acc i => acc.set i (exec i)) (List.replicate m ⟨none, none⟩)

/-- Observable behaviour of one batch call: the items emitted on the
output channel before it is closed, whether the channel is closed at the
end, and how many pool slots / executor invocations the call used. -/
structure BatchRun where
  stream : List ARes
  channelClosed : Bool
  slotsAcquired : Nat
  executorCalls : Nat
deriving DecidableEq, Repr

/-- BatchCheckPromptsWithModel (lines 226-282).  Closed client
(lines 229-239): one `closedResult` per input is sent, then the channel
is closed; no worker is spawned, no slot touched.  Open client
(lines 242-279), specialised to a context that is never cancelled (the
hypothesis of the ordering claim): every item worker eventually acquires
a slot (line 256) and runs the check (line 264) writing at its original
index (line 265); after the wait-group barrier (line 269) the slice is
streamed in index order (lines 272-278) and the channel closed
(line 243).  `order` is the completion order of the M workers. -/
def BatchCheckPromptsWithModel (closed : Bool) (contents : List String)
    (exec : Nat → ARes) (order : List Nat) : BatchRun :=
  if closed then
    ⟨contents.map fun _ => closedResult, true, 0, 0⟩
  else
    ⟨batchCollect contents.length exec order, true, contents.length, contents.length⟩

/-- BatchCheckConversationsWithModel (lines 312-368): structurally
identical to BatchCheckPromptsWithModel with conversations in place of
contents (closed path lines 315-325, open path lines 328-365). -/
def BatchCheckConversationsWithModel (closed : Bool)
    (conversations : List (List (Option Message)))
    (exec : Nat → ARes) (order : List Nat) : BatchRun :=
  if closed then
    ⟨conversations.map fun _ => closedResult, true, 0, 0⟩
  else
    ⟨batchCollect conversations.length exec order, true,
      conversations.length, conversations.length⟩

/-! ## Operational model of the AsyncClient worker pool

State machine distilled from async_client.go.  The `workerPool` buffered
channel of capacity `maxConcurrency` (line 71) is a counting semaphore:
`slotsUsed` tracks its occupancy.  `wgCount` is the counter of `ac.wg`;
single-call submissions register with it (line 116) but the per-item
goroutines of a batch call use a local wait group and never touch `ac.wg`
(lines 247-269).  Each worker owns one result channel; `delivered` lists
the results sent on it and `chanClosed` records the deferred
`close(resultChan)`.

An `Action` is one atomic step of some goroutine; an interleaving is a
list of actions.  The environment chooses, at submission time, the value
(`outcome`) the executor call would deliver for that task. -/

inductive Phase where
  | waiting
  | running
  | done
deriving DecidableEq, Repr

structure Worker where
  /-- true for single-call submissions counted in `ac.wg` (line 116);
  false for batch item workers, which are only tracked by the batch's
  local wait group (line 250). -/
  registered : Bool
  ctxCancelled : Bool
  acquiredSlot : Bool
  executorInvoked : Bool
  phase : Phase
  /-- value the executor call will deliver for this task. -/
  outcome : ARes
  delivered : List ARes
  chanClosed : Bool
deriving DecidableEq, Repr

def newWorker (registered : Bool) (outcome : ARes) : Worker :=
  ⟨registered, false, false, false, .waiting, outcome, [], false⟩

structure ClientState where
  /-- capacity of the `workerPool` channel (line 71). -/
  capacity : Nat
  /-- the `closed` flag guarded by `closeMu` (lines 49-50). -/
  closed : Bool
  /-- true once `Close()` has passed `wg.Wait()`, closed the pool channel
  and returned (lines 431-436). -/
  closeDone : Bool
  /-- occupancy of the `workerPool` channel. -/
  slotsUsed : Nat
  /-- counter of `ac.wg`. -/
  wgCount : Nat
  workers : List Worker
  /-- contents of the channels handed out by submissions that observed the
  closed flag (each is sent its error result and closed immediately,
  lines 108-113, 230-239). -/
  fastChannels : List (List ARes)
deriving DecidableEq, Repr

/-- NewAsyncClientWithConfig (lines 64-74): a non-positive requested
concurrency falls back to 10. -/
def effectiveConcurrency (m : Int) : Nat :=
  if m ≤ 0 then 10 else m.toNat

def initState (m : Int) : ClientState :=
  ⟨effectiveConcurrency m, false, false, 0, 0, [], []⟩

inductive Action where
  /-- CheckPromptWithModelAsync / CheckConversationWithModelAsync
  (lines 104-136, 167-199): the caller's synchronous part, including the
  closed-flag check and, when open, `wg.Add(1)` and the goroutine spawn. -/
  | submitSingle (outcome : ARes)
  /-- BatchCheckPromptsWithModel / BatchCheckConversationsWithModel
  (lines 226-282, 312-368): the closed-flag check and, when open, the
  spawn of one unregistered worker per item. -/
  | submitBatch (outcomes : List ARes)
  /-- the environment cancels worker `i`'s context. -/
  | cancelCtx (i : Nat)
  /-- worker `i`'s select takes the slot branch (lines 122-124): enabled
  whenever the pool has a free slot, even if the context is already
  cancelled, because Go's select chooses among ready cases at random.
  Acquiring the slot starts the executor call (line 131).  A send on the
  pool channel after Close has closed it would panic; that is not
  modelled, hence the `closeDone` guard. -/
  | acquireSlot (i : Nat)
  /-- worker `i`'s select takes the cancellation branch (lines 125-127):
  deliver `ctx.Err()`, close the channel, `wg.Done()`. -/
  | cancelBranch (i : Nat)
  /-- worker `i`'s executor call returns (lines 131-132): deliver the
  outcome, release the slot, close the channel, `wg.Done()`. -/
  | finish (i : Nat)
  /-- Close (lines 421-428): flip the closed flag; when already closed,
  return nil immediately (the state is unchanged and the call never
  blocks). -/
  | closeStart
  /-- Close (lines 431-436): `wg.Wait()` unblocks (counter zero), the
  pool channel is closed and Close returns. -/
  | closeFinish
deriving DecidableEq, Repr

def step (s : ClientState) : Action → Option ClientState
  | .submitSingle o =>
    if s.closed then
      some { s with fastChannels := s.fastChannels ++ [[closedResult]] }
    else
      some { s with workers := s.workers ++ [newWorker true o],
                    wgCount := s.wgCount + 1 }
  | .submitBatch os =>
    if s.closed then
      some { s with fastChannels := s.fastChannels ++ [os.map fun _ => closedResult] }
    else
      some { s with workers := s.workers ++ os.map (newWorker false) }
  | .cancelCtx i =>
    match s.workers.get? i with
    | some w => some { s with workers := s.workers.set i { w with ctxCancelled := true } }
    | none => none
  | .acquireSlot i =>
    match s.workers.get? i with
    | some w =>
      if w.phase = .waiting ∧ s.slotsUsed < s.capacity ∧ ¬s.closeDone then
        some { s with
          workers := s.workers.set i
            { w with phase := .running, acquiredSlot := true, executorInvoked := true }
          slotsUsed := s.slotsUsed + 1 }
      else none
    | none => none
  | .cancelBranch i =>
    match s.workers.get? i with
    | some w =>
      if w.phase = .waiting ∧ w.ctxCancelled then
        some { s with
          workers := s.workers.set i
            { w with phase := .done, delivered := [cancelResult], chanClosed := true }
          wgCount := if w.registered then s.wgCount - 1 else s.wgCount }
      else none
    | none => none
  | .finish i =>
    match s.workers.get? i with
    | some w =>
      if w.phase = .running then
        some { s with
          workers := s.workers.set i
            { w with phase := .done, delivered := [w.outcome], chanClosed := true }
          slotsUsed := s.slotsUsed - 1
          wgCount := if w.registered then s.wgCount - 1 else s.wgCount }
      else none
    | none => none
  | .closeStart =>
    if s.closed then some s else some { s with closed := true }
  | .closeFinish =>
    if s.closed ∧ ¬s.closeDone ∧ s.wgCount = 0 then
      some { s with closeDone := true }
    else none

/-- Run a whole interleaving. -/
def run (s : ClientState) : List Action → Option ClientState
  | [] => some s
  | a :: rest =>
    match step s a with
    | some s' => run s' rest
    | none => none

/-! ### Counting helpers and the client invariant -/

/-- Weight 1 for a worker whose executor call is in flight (it holds a
pool slot). -/
def runWeight (w : Worker) : Nat :=
  if w.phase = .running then 1 else 0

/-- Weight 1 for a worker still counted in `ac.wg`. -/
def regWeight (w : Worker) : Nat :=
  if w.registered = true ∧ w.phase ≠ .done then 1 else 0

def countW (f : Worker → Nat) : List Worker → Nat
  | [] => 0
  | w :: ws => f w + countW f ws

/-- Outcome reporting HTTP 429 rate limiting. -/
def isRateLimited : AttemptOutcome → Bool
  | .httpStatus code _ _ => code = 429
  | _ => false

/-- Validity of one message pointer as checked by the loop of
CheckConversationWithModel: non-nil, recognised role, content within the
length limit. -/
def ValidMessage (om : Option Message) : Prop :=
  ∃ m, om = some m ∧
    (m.role = "user" ∨ m.role = "system" ∨ m.role = "assistant") ∧
    m.content.utf8ByteSize ≤ 1000000

/-- Per-worker structural invariant: the executor has been invoked exactly
when a slot was acquired; a waiting or running worker has delivered
nothing and its channel is open; a finished worker has closed its channel
after delivering exactly one result — the executor outcome when it held a
slot, `ctx.Err()` when cancellation won the race. -/
def WorkerInv (w : Worker) : Prop :=
  w.executorInvoked = w.acquiredSlot ∧
  (w.phase = .waiting → w.acquiredSlot = false ∧ w.delivered = [] ∧ w.chanClosed = false) ∧
  (w.phase = .running → w.acquiredSlot = true ∧ w.delivered = [] ∧ w.chanClosed = false) ∧
  (w.phase = .done → w.chanClosed = true ∧
    w.delivered = (if w.acquiredSlot then [w.outcome] else [cancelResult]))

/-- Global invariant of the async client: in-flight executor calls match
pool occupancy, occupancy never exceeds capacity, `ac.wg` counts exactly
the unfinished registered workers, a completed Close implies the closed
flag and a drained wait group, and every worker satisfies `WorkerInv`. -/
def Inv (s : ClientState) : Prop :=
  countW runWeight s.workers = s.slotsUsed ∧
  s.slotsUsed ≤ s.capacity ∧
  countW regWeight s.workers = s.wgCount ∧
  (s.closeDone = true → s.closed = true) ∧
  (s.closeDone = true → s.wgCount = 0) ∧
  ∀ w ∈ s.workers, WorkerInv w

theorem countW_append (f : Worker → Nat) (xs ys : List Worker) :
    countW f (xs ++ ys) = countW f xs + countW f ys := by
  induction xs with
  | nil => simp [countW]
  | cons x xs ih =>
    simp only [List.cons_append, List.append_eq, countW] at ih ⊢
    omega

theorem countW_set (f : Worker → Nat) :
    ∀ (ws : List Worker) (i : Nat) (w w' : Worker), ws.get? i = some w →
      countW f (ws.set i w') + f w = countW f ws + f w' := by
  intro ws
  induction ws with
  | nil => intro i w w' h; simp at h
  | cons x xs ih =>
    intro i w w' h
    cases i with
    | zero =>
      simp only [List.get?_cons_zero, Option.some.injEq] at h
      subst h
      simp only [List.set, countW]
      omega
    | succ n =>
      simp only [List.get?_cons_succ] at h
      have := ih n w w' h
      simp only [List.set, countW]
      omega

theorem countW_ge (f : Worker → Nat) :
    ∀ (ws : List Worker) (i : Nat) (w : Worker), ws.get? i = some w →
      f w ≤ countW f ws := by
  intro ws
  induction ws with
  | nil => intro i w h; simp at h
  | cons x xs ih =>
    intro i w h
    cases i with
    | zero =>
      simp only [List.get?_cons_zero, Option.some.injEq] at h
      subst h
      simp only [countW]
      omega
    | succ n =>
      simp only [List.get?_cons_succ] at h
      have := ih n w h
      simp only [countW]
      omega

theorem mem_set_elim :
    ∀ (ws : List Worker) (i : Nat) (w' x : Worker), x ∈ ws.set i w' →
      x ∈ ws ∨ x = w' := by
  intro ws
  induction ws with
  | nil => intro i w' x h; simp [List.set] at h
  | cons y ys ih =>
    intro i w' x h
    cases i with
    | zero =>
      simp only [List.set, List.mem_cons] at h
      rcases h with h | h
      · exact Or.inr h
      · exact Or.inl (List.mem_cons_of_mem _ h)
    | succ n =>
      simp only [List.set, List.mem_cons] at h
      rcases h with h | h
      · exact Or.inl (h ▸ List.mem_cons_self _ _)
      · rcases ih n w' x h with h' | h'
        · exact Or.inl (List.mem_cons_of_mem _ h')
        · exact Or.inr h'

theorem get?_mem_worker :
    ∀ (ws : List Worker) (i : Nat) (w : Worker), ws.get? i = some w → w ∈ ws := by
  intro ws
  induction ws with
  | nil => intro i w h; simp at h
  | cons x xs ih =>
    intro i w h
    cases i with
    | zero =>
      simp only [List.get?_cons_zero, Option.some.injEq] at h
      exact h ▸ List.mem_cons_self _ _
    | succ n =>
      simp only [List.get?_cons_succ] at h
      exact List.mem_cons_of_mem _ (ih n w h)

theorem inv_init (m : Int) : Inv (initState m) := by
  refine ⟨rfl, ?_, rfl, ?_, ?_, ?_⟩
  · simp [initState]
  · intro h; simp [initState] at h
  · intro h; simp [initState] at h
  · intro w hw; simp [initState] at hw

theorem workerInv_new (r : Bool) (o : ARes) : WorkerInv (newWorker r o) := by
  refine ⟨rfl, fun _ => ⟨rfl, rfl, rfl⟩, fun h => ?_, fun h => ?_⟩ <;>
    simp [newWorker] at h

theorem countW_new_batch (f : Worker → Nat) (hf : ∀ o, f (newWorker false o) = 0)
    (os : List ARes) : countW f (os.map (newWorker false)) = 0 := by
  induction os with
  | nil => rfl
  | cons o os ih => simp only [List.map_cons, countW, hf, ih]

theorem inv_step {s s' : ClientState} {a : Action}
    (hs : Inv s) (h : step s a = some s') : Inv s' := by
  obtain ⟨hrun, hcap, hreg, hcd, hwg0, hws⟩ := hs
  cases a with
  | submitSingle o =>
    simp only [step] at h
    split at h
    case isTrue hc =>
      injection h with h; subst h
      exact ⟨hrun, hcap, hreg, hcd, hwg0, hws⟩
    case isFalse hc =>
      injection h with h; subst h
      refine ⟨?_, ?_, ?_, ?_, ?_, ?_⟩ <;> dsimp only
      · have h0 : runWeight (newWorker true o) = 0 := rfl
        simp only [countW_append, countW, h0]
        omega
      · exact hcap
      · have h1 : regWeight (newWorker true o) = 1 := rfl
        simp only [countW_append, countW, h1]
        omega
      · exact hcd
      · intro hd; exact absurd (hcd hd) hc
      · intro w hw
        rcases List.mem_append.mp hw with hw | hw
        · exact hws w hw
        · simp only [List.mem_singleton] at hw
          exact hw ▸ workerInv_new true o
  | submitBatch os =>
    simp only [step] at h
    split at h
    case isTrue hc =>
      injection h with h; subst h
      exact ⟨hrun, hcap, hreg, hcd, hwg0, hws⟩
    case isFalse hc =>
      injection h with h; subst h
      refine ⟨?_, ?_, ?_, ?_, ?_, ?_⟩ <;> dsimp only
      · have h0 := countW_new_batch runWeight (fun _ => rfl) os
        simp only [countW_append, h0]
        omega
      · exact hcap
      · have h0 := countW_new_batch regWeight (fun _ => rfl) os
        simp only [countW_append, h0]
        omega
      · exact hcd
      · exact hwg0
      · intro w hw
        rcases List.mem_append.mp hw with hw | hw
        · exact hws w hw
        · rcases List.mem_map.mp hw with ⟨o, _, rfl⟩
          exact workerInv_new false o
  | cancelCtx i =>
    simp only [step] at h
    split at h
    case h_1 w hw =>
      injection h with h; subst h
      refine ⟨?_, ?_, ?_, ?_, ?_, ?_⟩ <;> dsimp only
      · have hset := countW_set runWeight s.workers i w { w with ctxCancelled := true } hw
        have he : runWeight { w with ctxCancelled := true } = runWeight w := rfl
        omega
      · exact hcap
      · have hset := countW_set regWeight s.workers i w { w with ctxCancelled := true } hw
        have he : regWeight { w with ctxCancelled := true } = regWeight w := rfl
        omega
      · exact hcd
      · exact hwg0
      · intro x hx
        rcases mem_set_elim _ _ _ _ hx with hx | rfl
        · exact hws x hx
        · obtain ⟨e1, e2, e3, e4⟩ := hws w (get?_mem_worker _ _ _ hw)
          exact ⟨e1, e2, e3, e4⟩
    case h_2 => exact absurd h (by simp)
  | acquireSlot i =>
    simp only [step] at h
    split at h
    case h_1 w hw =>
      split at h
      case isTrue hcond =>
        injection h with h; subst h
        obtain ⟨hph, hlt, _⟩ := hcond
        obtain ⟨e1, e2, e3, e4⟩ := hws w (get?_mem_worker _ _ _ hw)
        obtain ⟨ha, hdel, hch⟩ := e2 hph
        refine ⟨?_, ?_, ?_, ?_, ?_, ?_⟩ <;> dsimp only
        · have hset := countW_set runWeight s.workers i w
            { w with phase := .running, acquiredSlot := true, executorInvoked := true } hw
          have h0 : runWeight w = 0 := by simp [runWeight, hph]
          have h1 : runWeight
              { w with phase := .running, acquiredSlot := true, executorInvoked := true }
              = 1 := rfl
          omega
        · omega
        · have hset := countW_set regWeight s.workers i w
            { w with phase := .running, acquiredSlot := true, executorInvoked := true } hw
          have he : regWeight
              { w with phase := .running, acquiredSlot := true, executorInvoked := true }
              = regWeight w := by
            simp [regWeight, hph]
          omega
        · exact hcd
        · exact hwg0
        · intro x hx
          rcases mem_set_elim _ _ _ _ hx with hx | rfl
          · exact hws x hx
          · refine ⟨rfl, fun hx => ?_, fun _ => ⟨rfl, hdel, hch⟩, fun hx => ?_⟩ <;>
              simp at hx
      case isFalse => exact absurd h (by simp)
    case h_2 => exact absurd h (by simp)
  | cancelBranch i =>
    simp only [step] at h
    split at h
    case h_1 w hw =>
      split at h
      case isTrue hcond =>
        injection h with h; subst h
        obtain ⟨hph, _⟩ := hcond
        obtain ⟨e1, e2, e3, e4⟩ := hws w (get?_mem_worker _ _ _ hw)
        obtain ⟨ha, hdel, hch⟩ := e2 hph
        refine ⟨?_, ?_, ?_, ?_, ?_, ?_⟩ <;> dsimp only
        · have hset := countW_set runWeight s.workers i w
            { w with phase := .done, delivered := [cancelResult], chanClosed := true } hw
          have h0 : runWeight w = 0 := by simp [runWeight, hph]
          have h1 : runWeight
              { w with phase := .done, delivered := [cancelResult], chanClosed := true }
              = 0 := rfl
          omega
        · exact hcap
        · have hset := countW_set regWeight s.workers i w
            { w with phase := .done, delivered := [cancelResult], chanClosed := true } hw
          have hge := countW_ge regWeight s.workers i w hw
          have h1 : regWeight
              { w with phase := .done, delivered := [cancelResult], chanClosed := true }
              = 0 := by
            simp [regWeight]
          split
          case isTrue hb =>
            have h0 : regWeight w = 1 := by simp [regWeight, hb, hph]
            omega
          case isFalse hb =>
            have h0 : regWeight w = 0 := by simp [regWeight, hb]
            omega
        · exact hcd
        · intro hd
          have := hwg0 hd
          split <;> omega
        · intro x hx
          rcases mem_set_elim _ _ _ _ hx with hx | rfl
          · exact hws x hx
          · refine ⟨e1, fun hx => ?_, fun hx => ?_, fun _ => ⟨rfl, ?_⟩⟩
            · simp at hx
            · simp at hx
            · dsimp only
              rw [ha, if_neg (by simp)]
      case isFalse => exact absurd h (by simp)
    case h_2 => exact absurd h (by simp)
  | finish i =>
    simp only [step] at h
    split at h
    case h_1 w hw =>
      split at h
      case isTrue hph =>
        injection h with h; subst h
        obtain ⟨e1, e2, e3, e4⟩ := hws w (get?_mem_worker _ _ _ hw)
        obtain ⟨ha, hdel, hch⟩ := e3 hph
        refine ⟨?_, ?_, ?_, ?_, ?_, ?_⟩ <;> dsimp only
        · have hset := countW_set runWeight s.workers i w
            { w with phase := .done, delivered := [w.outcome], chanClosed := true } hw
          have hge := countW_ge runWeight s.workers i w hw
          have h0 : runWeight w = 1 := by simp [runWeight, hph]
          have h1 : runWeight
              { w with phase := .done, delivered := [w.outcome], chanClosed := true }
              = 0 := rfl
          omega
        · omega
        · have hset := countW_set regWeight s.workers i w
            { w with phase := .done, delivered := [w.outcome], chanClosed := true } hw
          have hge := countW_ge regWeight s.workers i w hw
          have h1 : regWeight
              { w with phase := .done, delivered := [w.outcome], chanClosed := true }
              = 0 := by
            simp [regWeight]
          split
          case isTrue hb =>
            have h0 : regWeight w = 1 := by simp [regWeight, hb, hph]
            omega
          case isFalse hb =>
            have h0 : regWeight w = 0 := by simp [regWeight, hb]
            omega
        · exact hcd
        · intro hd
          have := hwg0 hd
          split <;> omega
        · intro x hx
          rcases mem_set_elim _ _ _ _ hx with hx | rfl
          · exact hws x hx
          · refine ⟨e1, fun hx => ?_, fun hx => ?_, fun _ => ⟨rfl, ?_⟩⟩
            · simp at hx
            · simp at hx
            · dsimp only
              rw [ha, if_pos rfl]
      case isFalse => exact absurd h (by simp)
    case h_2 => exact absurd h (by simp)
  | closeStart =>
    simp only [step] at h
    split at h
    case isTrue hc =>
      injection h with h; subst h
      exact ⟨hrun, hcap, hreg, hcd, hwg0, hws⟩
    case isFalse hc =>
      injection h with h; subst h
      exact ⟨hrun, hcap, hreg, fun _ => rfl, hwg0, hws⟩
  | closeFinish =>
    simp only [step] at h
    split at h
    case isTrue hcond =>
      injection h with h; subst h
      exact ⟨hrun, hcap, hreg, fun _ => hcond.1, fun _ => hcond.2.2, hws⟩
    case isFalse => exact absurd h (by simp)


theorem inv_run {s s' : ClientState} {acts : List Action}
    (hs : Inv s) (h : run s acts = some s') : Inv s' := by
  induction acts generalizing s with
  | nil =>
    simp only [run, Option.some.injEq] at h
    exact h ▸ hs
  | cons a rest ih =>
    simp only [run] at h
    split at h
    case h_1 s1 h1 => exact ih (inv_step hs h1) h
    case h_2 => exact absurd h (by simp)

theorem step_capacity {s s' : ClientState} {a : Action}
    (h : step s a = some s') : s'.capacity = s.capacity := by
  cases a <;> simp only [step] at h <;>
    (repeat split at h) <;>
    first
      | (injection h with h; subst h; rfl)
      | (exact absurd h (by simp))

theorem run_capacity {s s' : ClientState} {acts : List Action}
    (h : run s acts = some s') : s'.capacity = s.capacity := by
  induction acts generalizing s with
  | nil =>
    simp only [run, Option.some.injEq] at h
    exact h ▸ rfl
  | cons a rest ih =>
    simp only [run] at h
    split at h
    case h_1 s1 h1 => exact (ih h).trans (step_capacity h1)
    case h_2 => exact absurd h (by simp)

/-! ### Characterisations of the retry loop -/

theorem loopAux_step_transport (maxRetries : Nat) (exec : Nat → AttemptOutcome)
    (attempt fuel : Nat) (lastErr : Option ClientError) (invs : Nat) (bks : List Nat)
    (msg : String) (hx : exec attempt = .transportErr msg) :
    loopAux maxRetries exec attempt (fuel + 1) lastErr invs bks =
      if attempt < maxRetries then
        loopAux maxRetries exec (attempt + 1) fuel
          (some (.network ("request failed: " ++ msg))) (invs + 1)
          (bks ++ [calculateBackoff attempt])
      else ⟨.error (.network ("request failed: " ++ msg)), invs + 1, bks⟩ := by
  simp only [loopAux, hx]

theorem loopAux_step_success (maxRetries : Nat) (exec : Nat → AttemptOutcome)
    (attempt fuel : Nat) (lastErr : Option ClientError) (invs : Nat) (bks : List Nat)
    (p : Option GuardrailResponse) (hx : exec attempt = .success p) :
    loopAux maxRetries exec attempt (fuel + 1) lastErr invs bks =
      (match p with
       | some r => ⟨.ok r, invs + 1, bks⟩
       | none => ⟨.error (.xiangxinAI "failed to parse response"), invs + 1, bks⟩) := by
  cases p <;> simp only [loopAux, hx]

theorem loopAux_step_status (maxRetries : Nat) (exec : Nat → AttemptOutcome)
    (attempt fuel : Nat) (lastErr : Option ClientError) (invs : Nat) (bks : List Nat)
    (code : Nat) (d : Option String) (b : String)
    (hx : exec attempt = .httpStatus code d b) :
    loopAux maxRetries exec attempt (fuel + 1) lastErr invs bks =
      if code = 401 then ⟨.error (.authentication "invalid API key"), invs + 1, bks⟩
      else if code = 422 then
        ⟨.error (.validation ("validation error: " ++ d.getD "validation error")),
          invs + 1, bks⟩
      else if code = 429 then
        if attempt < maxRetries then
          loopAux maxRetries exec (attempt + 1) fuel
            (some (.rateLimit "rate limit exceeded")) (invs + 1)
            (bks ++ [calculateBackoff attempt])
        else ⟨.error (.rateLimit "rate limit exceeded"), invs + 1, bks⟩
      else if attempt < maxRetries then
        loopAux maxRetries exec (attempt + 1) fuel
          (some (.xiangxinAI ("API request failed with status " ++ toString code
            ++ ": " ++ d.getD b))) (invs + 1)
          (bks ++ [calculateBackoff attempt])
      else
        ⟨.error (.xiangxinAI ("API request failed with status " ++ toString code
          ++ ": " ++ d.getD b)), invs + 1, bks⟩ := by
  simp only [loopAux, hx]

/-- When every remaining attempt yields a transient outcome, the loop
consumes its whole budget, sleeping the scheduled backoff after each
attempt except the last, and returns the classification of the final
attempt's outcome. -/
theorem loopAux_allTransient (maxRetries : Nat) (exec : Nat → AttemptOutcome) :
    ∀ (f attempt : Nat) (lastErr : Option ClientError) (invs : Nat) (bks : List Nat),
      attempt + f = maxRetries →
      (∀ k, attempt ≤ k → k ≤ maxRetries → isTransient (exec k) = true) →
      loopAux maxRetries exec attempt (f + 1) lastErr invs bks =
        ⟨.error (transientError (exec maxRetries)), invs + f + 1,
          bks ++ (List.range' attempt f).map calculateBackoff⟩ := by
  intro f
  induction f with
  | zero =>
    intro attempt lastErr invs bks hat htrans
    have hA : attempt = maxRetries := by omega
    subst hA
    have ht := htrans attempt le_rfl le_rfl
    rcases hx : exec attempt with msg | p | ⟨code, d, b⟩
    · rw [loopAux_step_transport attempt exec attempt 0 lastErr invs bks msg hx,
        if_neg (lt_irrefl attempt)]
      simp [transientError, hx]
    · rw [hx] at ht; simp [isTransient] at ht
    · rw [hx] at ht
      simp only [isTransient, decide_eq_true_eq] at ht
      obtain ⟨h401, h422⟩ := ht
      rw [loopAux_step_status attempt exec attempt 0 lastErr invs bks code d b hx,
        if_neg h401, if_neg h422]
      by_cases h429 : code = 429
      · rw [if_pos h429, if_neg (lt_irrefl attempt)]
        simp [transientError, hx, h429]
      · rw [if_neg h429, if_neg (lt_irrefl attempt)]
        simp [transientError, hx, h401, h422, h429]
  | succ f ih =>
    intro attempt lastErr invs bks hat htrans
    have hlt : attempt < maxRetries := by omega
    have ht := htrans attempt le_rfl (by omega)
    have hrec : ∀ le', loopAux maxRetries exec (attempt + 1) (f + 1) le' (invs + 1)
        (bks ++ [calculateBackoff attempt]) =
        ⟨.error (transientError (exec maxRetries)), invs + 1 + f + 1,
          bks ++ [calculateBackoff attempt]
            ++ (List.range' (attempt + 1) f).map calculateBackoff⟩ := by
      intro le'
      exact ih (attempt + 1) le' (invs + 1) (bks ++ [calculateBackoff attempt])
        (by omega) (fun k hk1 hk2 => htrans k (by omega) hk2)
    have hrange : (List.range' attempt (f + 1)).map calculateBackoff =
        calculateBackoff attempt :: (List.range' (attempt + 1) f).map calculateBackoff := by
      simp [List.range']
    rcases hx : exec attempt with msg | p | ⟨code, d, b⟩
    · rw [loopAux_step_transport maxRetries exec attempt (f + 1) lastErr invs bks msg hx,
        if_pos hlt, hrec, hrange]
      exact congrArg₂ (RunTrace.mk _) (by omega) (by simp)
    · rw [hx] at ht; simp [isTransient] at ht
    · rw [hx] at ht
      simp only [isTransient, decide_eq_true_eq] at ht
      obtain ⟨h401, h422⟩ := ht
      rw [loopAux_step_status maxRetries exec attempt (f + 1) lastErr invs bks
        code d b hx, if_neg h401, if_neg h422]
      by_cases h429 : code = 429
      · rw [if_pos h429, if_pos hlt, hrec, hrange]
        exact congrArg₂ (RunTrace.mk _) (by omega) (by simp)
      · rw [if_neg h429, if_pos hlt, hrec, hrange]
        exact congrArg₂ (RunTrace.mk _) (by omega) (by simp)

/-- When the first `j` attempts are transient and attempt `j` yields a
terminal (401 / 422) outcome within the budget, the loop returns that
terminal error right after invocation `j + 1`, with no backoff after it. -/
theorem loopAux_terminal (maxRetries : Nat) (exec : Nat → AttemptOutcome) :
    ∀ (j attempt fuel : Nat) (lastErr : Option ClientError) (invs : Nat)
      (bks : List Nat) (e : ClientError),
      attempt + fuel = maxRetries + 1 →
      attempt + j ≤ maxRetries →
      (∀ k, attempt ≤ k → k < attempt + j → isTransient (exec k) = true) →
      terminalResult (exec (attempt + j)) = some e →
      loopAux maxRetries exec attempt fuel lastErr invs bks =
        ⟨.error e, invs + j + 1, bks ++ (List.range' attempt j).map calculateBackoff⟩ := by
  intro j
  induction j with
  | zero =>
    intro attempt fuel lastErr invs bks e hat hle _ hterm
    rcases fuel with _ | f
    · omega
    rw [Nat.add_zero] at hterm
    rcases hx : exec attempt with msg | p | ⟨code, d, b⟩ <;> rw [hx] at hterm
    · simp [terminalResult] at hterm
    · simp [terminalResult] at hterm
    · simp only [terminalResult] at hterm
      rw [loopAux_step_status maxRetries exec attempt f lastErr invs bks code d b hx]
      by_cases h401 : code = 401
      · rw [if_pos h401] at hterm
        injection hterm with hterm
        rw [if_pos h401]
        simp [hterm]
      · by_cases h422 : code = 422
        · rw [if_neg h401, if_pos h422] at hterm
          injection hterm with hterm
          rw [if_neg h401, if_pos h422]
          simp [hterm]
        · rw [if_neg h401, if_neg h422] at hterm
          cases hterm
  | succ j ih =>
    intro attempt fuel lastErr invs bks e hat hle htrans hterm
    have hlt : attempt < maxRetries := by omega
    rcases fuel with _ | f
    · omega
    have ht := htrans attempt le_rfl (by omega)
    have hrec : ∀ le', loopAux maxRetries exec (attempt + 1) f le' (invs + 1)
        (bks ++ [calculateBackoff attempt]) =
        ⟨.error e, invs + 1 + j + 1,
          bks ++ [calculateBackoff attempt]
            ++ (List.range' (attempt + 1) j).map calculateBackoff⟩ := by
      intro le'
      refine ih (attempt + 1) f le' (invs + 1) (bks ++ [calculateBackoff attempt]) e
        (by omega) (by omega) (fun k hk1 hk2 => htrans k (by omega) (by omega)) ?_
      have heq : attempt + 1 + j = attempt + (j + 1) := by omega
      rw [heq]
      exact hterm
    have hrange : (List.range' attempt (j + 1)).map calculateBackoff =
        calculateBackoff attempt :: (List.range' (attempt + 1) j).map calculateBackoff := by
      simp [List.range']
    rcases hx : exec attempt with msg | p | ⟨code, d, b⟩
    · rw [loopAux_step_transport maxRetries exec attempt f lastErr invs bks msg hx,
        if_pos hlt, hrec, hrange]
      exact congrArg₂ (RunTrace.mk _) (by omega) (by simp)
    · rw [hx] at ht; simp [isTransient] at ht
    · rw [hx] at ht
      simp only [isTransient, decide_eq_true_eq] at ht
      obtain ⟨h401, h422⟩ := ht
      rw [loopAux_step_status maxRetries exec attempt f lastErr invs bks code d b hx,
        if_neg h401, if_neg h422]
      by_cases h429 : code = 429
      · rw [if_pos h429, if_pos hlt, hrec, hrange]
        exact congrArg₂ (RunTrace.mk _) (by omega) (by simp)
      · rw [if_neg h429, if_pos hlt, hrec, hrange]
        exact congrArg₂ (RunTrace.mk _) (by omega) (by simp)

/-- A second invocation happens only when the first outcome was
transient: success, a parse failure, 401 and 422 all return after one
invocation. -/
theorem first_invocation_gate (maxRetries : Nat) (exec : Nat → AttemptOutcome)
    (h2 : 2 ≤ (makeRequestWithData maxRetries exec).invocations) :
    isTransient (exec 0) = true := by
  rcases hx : exec 0 with msg | p | ⟨code, d, b⟩
  · rfl
  · exfalso
    rw [makeRequestWithData,
      loopAux_step_success maxRetries exec 0 maxRetries none 0 [] p hx] at h2
    cases p <;> simp at h2
  · by_cases h401 : code = 401
    · exfalso
      rw [makeRequestWithData,
        loopAux_step_status maxRetries exec 0 maxRetries none 0 [] code d b hx,
        if_pos h401] at h2
      simp at h2
    · by_cases h422 : code = 422
      · exfalso
        rw [makeRequestWithData,
          loopAux_step_status maxRetries exec 0 maxRetries none 0 [] code d b hx,
          if_neg h401, if_pos h422] at h2
        simp at h2
      · simp [isTransient, h401, h422]

/-! ### Index-addressed writes of the batch collector -/

theorem get?_set_self {α : Type} (l : List α) (n : Nat) (a : α) (h : n < l.length) :
    (l.set n a).get? n = some a := by
  induction l generalizing n with
  | nil => simp at h
  | cons x xs ih =>
    cases n with
    | zero => rfl
    | succ m =>
      simp only [List.length_cons] at h
      simpa [List.set] using ih m (by omega)

theorem get?_set_other {α : Type} (l : List α) (n m : Nat) (a : α) (h : n ≠ m) :
    (l.set n a).get? m = l.get? m := by
  induction l generalizing n m with
  | nil => simp [List.set]
  | cons x xs ih =>
    cases n with
    | zero =>
      cases m with
      | zero => exact absurd rfl h
      | succ k => rfl
    | succ n' =>
      cases m with
      | zero => rfl
      | succ k => simpa [List.set] using ih n' k (by omega)

theorem foldl_set_length {α : Type} (exec : Nat → α) :
    ∀ (order : List Nat) (init : List α),
      (order.foldl (fun acc i => acc.set i (exec i)) init).length = init.length := by
  intro order
  induction order with
  | nil => intro init; rfl
  | cons j rest ih =>
    intro init
    simpa [List.foldl_cons] using (ih (init.set j (exec j))).trans (by simp)

theorem foldl_set_get? {α : Type} (exec : Nat → α) :
    ∀ (order : List Nat) (init : List α) (i : Nat), i < init.length →
      (order.foldl (fun acc i => acc.set i (exec i)) init).get? i =
        if i ∈ order then some (exec i) else init.get? i := by
  intro order
  induction order with
  | nil => intro init i _; simp
  | cons j rest ih =>
    intro init i hi
    have hlen : i < (init.set j (exec j)).length := by simpa using hi
    by_cases hm : i ∈ rest
    · simp only [List.foldl_cons, ih (init.set j (exec j)) i hlen, if_pos hm,
        List.mem_cons, hm, or_true, if_pos]
    · by_cases hij : i = j
      · subst hij
        simp only [List.foldl_cons, ih (init.set i (exec i)) i hlen, if_neg hm,
          get?_set_self init i (exec i) hi, List.mem_cons, true_or, if_pos]
      · have : ¬i ∈ j :: rest := by
          simp only [List.mem_cons, not_or]
          exact ⟨hij, hm⟩
        simp only [List.foldl_cons, ih (init.set j (exec j)) i hlen, if_neg hm,
          get?_set_other init j i (exec j) (fun h => hij h.symm), if_neg this]

theorem get?_replicate {α : Type} (x : α) :
    ∀ (m i : Nat), i < m → (List.replicate m x).get? i = some x := by
  intro m
  induction m with
  | zero => intro i h; omega
  | succ m ih =>
    intro i h
    cases i with
    | zero => rfl
    | succ k => simpa [List.replicate] using ih k (by omega)

theorem batchCollect_length (m : Nat) (exec : Nat → ARes) (order : List Nat) :
    (batchCollect m exec order).length = m := by
  simpa [batchCollect] using foldl_set_length exec order (List.replicate m ⟨none, none⟩)

theorem batchCollect_get? (m : Nat) (exec : Nat → ARes) (order : List Nat)
    (i : Nat) (hi : i < m) (hmem : i ∈ order) :
    (batchCollect m exec order).get? i = some (exec i) := by
  have h := foldl_set_get? exec order (List.replicate m ⟨none, none⟩) i (by simpa using hi)
  rw [batchCollect, h, if_pos hmem]

/-! ### Validation loop on all-empty message lists -/

theorem validateLoop_allEmpty :
    ∀ msgs : List (Option Message),
      (∀ om ∈ msgs, ValidMessage om ∧
        (∀ m, om = some m → goTrimSpace m.content = "")) →
      validateLoop msgs = .ok ([], true) := by
  intro msgs
  induction msgs with
  | nil => intro _; rfl
  | cons om rest ih =>
    intro h
    obtain ⟨⟨m, rfl, hrole, hlen⟩, hempty⟩ := h om (List.mem_cons_self _ _)
    have hrest := ih fun x hx => h x (List.mem_cons_of_mem _ hx)
    have hnotbad : ¬(m.role ≠ "user" ∧ m.role ≠ "system" ∧ m.role ≠ "assistant") := by
      rcases hrole with h1 | h1 | h1 <;> simp [h1]
    rw [validateLoop, if_neg hnotbad, if_neg (by omega), hrest]
    simp [hempty m rfl]

theorem countW_mem_ge (f : Worker → Nat) :
    ∀ (ws : List Worker) (w : Worker), w ∈ ws → f w ≤ countW f ws := by
  intro ws
  induction ws with
  | nil => intro w h; simp at h
  | cons x xs ih =>
    intro w h
    rcases List.mem_cons.mp h with rfl | h
    · simp only [countW]; omega
    · have := ih w h
      simp only [countW]; omega

/-! ## Claim theorems -/

/-- C3: for every executor whose every invocation reports rate limiting,
a single request performs exactly maxRetries + 1 executor invocations,
the delay before retry k (0-indexed) is exactly 2^k + 1 seconds with no
jitter, and a rate-limit error is returned to the caller. -/
theorem rate_limited_retry_schedule (maxRetries : Nat) (exec : Nat → AttemptOutcome)
    (hrl : ∀ k, isRateLimited (exec k) = true) :
    (makeRequestWithData maxRetries exec).invocations = maxRetries + 1 ∧
    (makeRequestWithData maxRetries exec).result
      = .error (.rateLimit "rate limit exceeded") ∧
    (makeRequestWithData maxRetries exec).backoffs
      = (List.range maxRetries).map calculateBackoff ∧
    (∀ k, calculateBackoff k = 2 ^ k + 1) := by
  have htrans : ∀ k, 0 ≤ k → k ≤ maxRetries → isTransient (exec k) = true := by
    intro k _ _
    have hk := hrl k
    rcases hx : exec k with msg | p | ⟨code, d, b⟩ <;> rw [hx] at hk <;>
      simp only [isRateLimited, decide_eq_true_eq] at hk
    · exact absurd hk (by simp)
    · exact absurd hk (by simp)
    · subst hk
      simp [isTransient]
  have hte : transientError (exec maxRetries) = .rateLimit "rate limit exceeded" := by
    have hk := hrl maxRetries
    rcases hx : exec maxRetries with msg | p | ⟨code, d, b⟩ <;> rw [hx] at hk <;>
      simp only [isRateLimited, decide_eq_true_eq] at hk
    · exact absurd hk (by simp)
    · exact absurd hk (by simp)
    · subst hk
      simp [transientError]
  have h := loopAux_allTransient maxRetries exec maxRetries 0 none 0 []
    (by omega) htrans
  rw [makeRequestWithData] at *
  refine ⟨?_, ?_, ?_, fun k => rfl⟩ <;> rw [h]
  · simp
  · simp [hte]
  · simp [List.range_eq_range']

/-- Witness for C3 at maxRetries = 2 and a constant 429 executor. -/
theorem rate_limited_retry_schedule_witness :
    (makeRequestWithData 2 (fun _ => AttemptOutcome.httpStatus 429 none "r")).invocations
      = 2 + 1 ∧
    (makeRequestWithData 2 (fun _ => AttemptOutcome.httpStatus 429 none "r")).backoffs
      = (List.range 2).map calculateBackoff ∧
    (makeRequestWithData 2 (fun _ => AttemptOutcome.httpStatus 429 none "r")).result
      = .error (.rateLimit "rate limit exceeded") :=
  ⟨(rate_limited_retry_schedule 2 (fun _ => AttemptOutcome.httpStatus 429 none "r")
      (fun _ => rfl)).1,
   (rate_limited_retry_schedule 2 (fun _ => AttemptOutcome.httpStatus 429 none "r")
      (fun _ => rfl)).2.2.1,
   (rate_limited_retry_schedule 2 (fun _ => AttemptOutcome.httpStatus 429 none "r")
      (fun _ => rfl)).2.1⟩

/-- C4: a terminal outcome (HTTP 401 or 422) at attempt j, after j
transient attempts within the budget, is returned right after invocation
j + 1 with no backoff after it; and a second invocation happens only when
the first outcome was transient. -/
theorem terminal_errors_no_retry :
    (∀ (maxRetries : Nat) (exec : Nat → AttemptOutcome) (j : Nat) (e : ClientError),
      j ≤ maxRetries →
      (∀ k, k < j → isTransient (exec k) = true) →
      terminalResult (exec j) = some e →
      makeRequestWithData maxRetries exec =
        ⟨.error e, j + 1, (List.range j).map calculateBackoff⟩) ∧
    (∀ (maxRetries : Nat) (exec : Nat → AttemptOutcome),
      2 ≤ (makeRequestWithData maxRetries exec).invocations →
      isTransient (exec 0) = true) := by
  constructor
  · intro mr exec j e hj htr hterm
    have h := loopAux_terminal mr exec j 0 (mr + 1) none 0 [] e (by omega)
      (by omega) (fun k _ hk2 => htr k (by omega)) (by simpa using hterm)
    rw [makeRequestWithData, h]
    simp [List.range_eq_range']
  · exact first_invocation_gate

/-- Witness for C4: one 429 attempt followed by a 401 ends the run after
two invocations with a single backoff and the authentication error. -/
theorem terminal_errors_no_retry_witness :
    makeRequestWithData 3
        (fun k => if k = 0 then AttemptOutcome.httpStatus 429 none "r"
                  else AttemptOutcome.httpStatus 401 none "a")
      = ⟨.error (.authentication "invalid API key"), 2, [2]⟩ := by
  have h := terminal_errors_no_retry.1 3
    (fun k => if k = 0 then AttemptOutcome.httpStatus 429 none "r"
              else AttemptOutcome.httpStatus 401 none "a")
    1 (.authentication "invalid API key") (by omega)
    (fun k hk => by
      have hk0 : k = 0 := by omega
      subst hk0
      decide)
    (by decide)
  rw [h]
  rfl

/-- C7 (counterexample): with maxRetries = 1, an always-429 executor and
a context cancelled during the first backoff wait, the code performs a
second executor invocation and returns a network error wrapping the
context error — not a cancellation error after a single invocation. -/
theorem backoff_cancel_does_not_abort :
    (makeRequestWithDataCtx 1 (fun _ => AttemptOutcome.httpStatus 429 none "r")
      (some 1)).invocations = 2 ∧
    (makeRequestWithDataCtx 1 (fun _ => AttemptOutcome.httpStatus 429 none "r")
      (some 1)).result = .error (.network "request failed: context canceled") ∧
    ¬(makeRequestWithDataCtx 1 (fun _ => AttemptOutcome.httpStatus 429 none "r")
      (some 1)).invocations = 1 ∧
    ¬(makeRequestWithDataCtx 1 (fun _ => AttemptOutcome.httpStatus 429 none "r")
      (some 1)).result = .error .contextCanceled ∧
    waitedBackoffs (some 1)
      (makeRequestWithDataCtx 1 (fun _ => AttemptOutcome.httpStatus 429 none "r")
        (some 1)).backoffs = [0] := by
  refine ⟨?_, ?_, ?_, ?_, ?_⟩ <;> decide

/-- C7 (amended): cancellation during the backoff before attempt j ends
that wait (and all later waits) immediately, but the loop still issues
every remaining attempt — each failing in transport on the dead context —
and after the full budget returns the network error wrapping the context
error, not a cancellation error. -/
theorem backoff_cancel_continues_retries (maxRetries : Nat)
    (exec : Nat → AttemptOutcome) (j : Nat) (hj1 : 1 ≤ j) (hj2 : j ≤ maxRetries)
    (htr : ∀ k, k < j → isTransient (exec k) = true) :
    (makeRequestWithDataCtx maxRetries exec (some j)).invocations = maxRetries + 1 ∧
    (makeRequestWithDataCtx maxRetries exec (some j)).result
      = .error (.network "request failed: context canceled") ∧
    (makeRequestWithDataCtx maxRetries exec (some j)).backoffs
      = (List.range maxRetries).map calculateBackoff ∧
    (∀ k, j - 1 ≤ k → k < maxRetries →
      (waitedBackoffs (some j)
        (makeRequestWithDataCtx maxRetries exec (some j)).backoffs).get? k
        = some 0) := by
  have htrans : ∀ k, 0 ≤ k → k ≤ maxRetries →
      isTransient (ctxExec exec (some j) k) = true := by
    intro k _ _
    by_cases hjk : j ≤ k
    · simp [ctxExec, hjk, isTransient]
    · simp only [ctxExec, if_neg hjk]
      exact htr k (by omega)
  have hte : transientError (ctxExec exec (some j) maxRetries)
      = .network "request failed: context canceled" := by
    simp [ctxExec, hj2, transientError]
  have h := loopAux_allTransient maxRetries (ctxExec exec (some j)) maxRetries 0
    none 0 [] (by omega) htrans
  rw [makeRequestWithDataCtx, makeRequestWithData] at *
  have hbks : (loopAux maxRetries (ctxExec exec (some j)) 0 (maxRetries + 1)
      none 0 []).backoffs = (List.range maxRetries).map calculateBackoff := by
    rw [h]
    simp [List.range_eq_range']
  refine ⟨?_, ?_, hbks, ?_⟩
  · rw [h]
    simp
  · rw [h]
    simp [hte]
  · intro k hk1 hk2
    rw [hbks, waitedBackoffs]
    have hget : ((List.range maxRetries).map calculateBackoff).get? k
        = some (calculateBackoff k) := by
      rw [List.get?_map, List.get?_range hk2]
      rfl
    rw [List.get?_map, List.get?_enum, hget]
    simp only [Option.map_some']
    rw [if_pos (by omega)]

/-- Witness for C7 (amended) at maxRetries = 2, always-429 executor,
cancellation during the first backoff. -/
theorem backoff_cancel_continues_retries_witness :
    (makeRequestWithDataCtx 2 (fun _ => AttemptOutcome.httpStatus 429 none "r")
      (some 1)).invocations = 2 + 1 ∧
    (waitedBackoffs (some 1)
      (makeRequestWithDataCtx 2 (fun _ => AttemptOutcome.httpStatus 429 none "r")
        (some 1)).backoffs).get? 1 = some 0 :=
  ⟨(backoff_cancel_continues_retries 2
      (fun _ => AttemptOutcome.httpStatus 429 none "r") 1 (by omega) (by omega)
      (fun k hk => by
        have hk0 : k = 0 := by omega
        subst hk0
        decide)).1,
   (backoff_cancel_continues_retries 2
      (fun _ => AttemptOutcome.httpStatus 429 none "r") 1 (by omega) (by omega)
      (fun k hk => by
        have hk0 : k = 0 := by omega
        subst hk0
        decide)).2.2.2 1 (by omega) (by omega)⟩

/-- C1: on an open client with a context that is never cancelled, a batch
of M inputs yields a stream of exactly M results, the result at stream
position i being the outcome of input i for every i, for every completion
order of the M workers; M = 0 yields an immediately-closed empty stream.
Holds for BatchCheckPromptsWithModel and BatchCheckConversationsWithModel. -/
theorem batch_ordering_preserved (contents : List String)
    (conversations : List (List (Option Message)))
    (execP execC : Nat → ARes) (order order2 : List Nat)
    (hperm : order.Perm (List.range contents.length))
    (hperm2 : order2.Perm (List.range conversations.length)) :
    (BatchCheckPromptsWithModel false contents execP order).stream.length
      = contents.length ∧
    (∀ i, i < contents.length →
      (BatchCheckPromptsWithModel false contents execP order).stream.get? i
        = some (execP i)) ∧
    (BatchCheckPromptsWithModel false contents execP order).channelClosed = true ∧
    (contents = [] →
      (BatchCheckPromptsWithModel false contents execP order).stream = []) ∧
    (BatchCheckConversationsWithModel false conversations execC order2).stream.length
      = conversations.length ∧
    (∀ i, i < conversations.length →
      (BatchCheckConversationsWithModel false conversations execC order2).stream.get? i
        = some (execC i)) ∧
    (BatchCheckConversationsWithModel false conversations execC order2).channelClosed
      = true ∧
    (conversations = [] →
      (BatchCheckConversationsWithModel false conversations execC order2).stream
        = []) := by
  have hsp : (BatchCheckPromptsWithModel false contents execP order).stream
      = batchCollect contents.length execP order := rfl
  have hsc : (BatchCheckConversationsWithModel false conversations execC order2).stream
      = batchCollect conversations.length execC order2 := rfl
  refine ⟨?_, ?_, rfl, ?_, ?_, ?_, rfl, ?_⟩
  · rw [hsp, batchCollect_length]
  · intro i hi
    rw [hsp]
    exact batchCollect_get? contents.length execP order i hi
      (hperm.mem_iff.mpr (List.mem_range.mpr hi))
  · intro hnil
    rw [hsp]
    have : (batchCollect contents.length execP order).length = 0 := by
      rw [batchCollect_length, hnil]
      rfl
    exact List.length_eq_zero.mp this
  · rw [hsc, batchCollect_length]
  · intro i hi
    rw [hsc]
    exact batchCollect_get? conversations.length execC order2 i hi
      (hperm2.mem_iff.mpr (List.mem_range.mpr hi))
  · intro hnil
    rw [hsc]
    have : (batchCollect conversations.length execC order2).length = 0 := by
      rw [batchCollect_length, hnil]
      rfl
    exact List.length_eq_zero.mp this

/-- Witness for C1: three inputs whose workers complete in reverse order
still stream their outcomes in submission order. -/
theorem batch_ordering_preserved_witness :
    (BatchCheckPromptsWithModel false ["a", "b", "c"]
      (fun i => ⟨none, some (.xiangxinAI (toString i))⟩) [2, 1, 0]).stream.get? 0
      = some ⟨none, some (.xiangxinAI "0")⟩ ∧
    (BatchCheckPromptsWithModel false ["a", "b", "c"]
      (fun i => ⟨none, some (.xiangxinAI (toString i))⟩) [2, 1, 0]).stream.get? 2
      = some ⟨none, some (.xiangxinAI "2")⟩ := by
  have h := batch_ordering_preserved ["a", "b", "c"] []
    (fun i => ⟨none, some (.xiangxinAI (toString i))⟩) (fun _ => ⟨none, none⟩)
    [2, 1, 0] [] (by decide) (by decide)
  exact ⟨h.2.1 0 (by decide), h.2.1 2 (by decide)⟩

/-- C10: a batch submitted on a closed client yields one closed-client
error result per input element — len(contents) results in total, not a
single error — then closes the channel, with no slot acquired and no
executor invocation; likewise for conversations. -/
theorem closed_batch_per_item_errors (contents : List String)
    (conversations : List (List (Option Message)))
    (execP execC : Nat → ARes) (order order2 : List Nat) :
    (BatchCheckPromptsWithModel true contents execP order).stream.length
      = contents.length ∧
    (∀ r ∈ (BatchCheckPromptsWithModel true contents execP order).stream,
      r = closedResult) ∧
    (BatchCheckPromptsWithModel true contents execP order).channelClosed = true ∧
    (BatchCheckPromptsWithModel true contents execP order).slotsAcquired = 0 ∧
    (BatchCheckPromptsWithModel true contents execP order).executorCalls = 0 ∧
    (BatchCheckConversationsWithModel true conversations execC order2).stream.length
      = conversations.length ∧
    (∀ r ∈ (BatchCheckConversationsWithModel true conversations execC order2).stream,
      r = closedResult) ∧
    (BatchCheckConversationsWithModel true conversations execC order2).channelClosed
      = true ∧
    (BatchCheckConversationsWithModel true conversations execC order2).slotsAcquired
      = 0 ∧
    (BatchCheckConversationsWithModel true conversations execC order2).executorCalls
      = 0 ∧
    closedResult.error = some (.xiangxinAI "async client is closed") := by
  refine ⟨?_, ?_, rfl, rfl, rfl, ?_, ?_, rfl, rfl, rfl, rfl⟩
  · simp [BatchCheckPromptsWithModel]
  · intro r hr
    rcases List.mem_map.mp hr with ⟨x, _, rfl⟩
    rfl
  · simp [BatchCheckConversationsWithModel]
  · intro r hr
    rcases List.mem_map.mp hr with ⟨x, _, rfl⟩
    rfl

/-- C9 (counterexample): a single message with an unrecognised role and
empty content — every message's trimmed content is empty — makes
CheckConversationWithModel return a validation error, not the safe
default. -/
theorem conversation_invalid_role_not_safe :
    CheckConversationWithModel [some ⟨"moderator", ""⟩] "Xiangxin-Guardrails-Text" []
      = .fail (.validation "message role must be one of: user, system, assistant") ∧
    goTrimSpace "" = "" ∧
    ¬CheckConversationWithModel [some ⟨"moderator", ""⟩] "Xiangxin-Guardrails-Text" []
      = .safe createSafeResponse := by
  refine ⟨?_, rfl, ?_⟩ <;> decide

/-- C9 (amended): CheckPrompt returns the safe default (id
guardrails-safe-default, overall no_risk, action pass) with a nil error
and no remote request whenever the trimmed input is empty; and
CheckConversationWithModel does so when the message list is nonempty and
every message is non-nil with a recognised role, content within the
length limit, and empty trimmed content. -/
theorem empty_input_safe_default :
    (∀ (content : String) (userID : List String), goTrimSpace content = "" →
      CheckPrompt content userID = .safe createSafeResponse) ∧
    (∀ (msgs : List (Option Message)) (model : String) (userID : List String),
      msgs ≠ [] →
      (∀ om ∈ msgs, ValidMessage om ∧ ∀ m, om = some m → goTrimSpace m.content = "") →
      CheckConversationWithModel msgs model userID = .safe createSafeResponse) ∧
    createSafeResponse.id = "guardrails-safe-default" ∧
    createSafeResponse.overallRiskLevel = "no_risk" ∧
    createSafeResponse.suggestAction = "pass" ∧
    createSafeResponse.suggestAnswer = none := by
  refine ⟨?_, ?_, rfl, rfl, rfl, rfl⟩
  · intro content uid h
    simp [CheckPrompt, h]
  · intro msgs model uid hne hall
    rw [CheckConversationWithModel, if_neg hne, validateLoop_allEmpty msgs hall]
    rfl

/-- Witness for C9 (amended): whitespace-only prompt and a whitespace-only
user message both yield the safe default. -/
theorem empty_input_safe_default_witness :
    CheckPrompt "   " [] = .safe createSafeResponse ∧
    CheckConversationWithModel [some ⟨"user", " "⟩] "Xiangxin-Guardrails-Text" []
      = .safe createSafeResponse :=
  ⟨empty_input_safe_default.1 "   " [] (by decide),
   empty_input_safe_default.2.1 [some ⟨"user", " "⟩] "Xiangxin-Guardrails-Text" []
     (by decide)
     (by
       intro om hom
       simp only [List.mem_singleton] at hom
       subst hom
       refine ⟨⟨⟨"user", " "⟩, rfl, Or.inl rfl, by decide⟩, ?_⟩
       intro m hm
       injection hm with hm
       subst hm
       decide)⟩

/-- C8: for a pool built with requested concurrency m (capacity
effectiveConcurrency m, which is 10 whenever m is not positive), in every
reachable state of every interleaving the number of in-flight executor
calls equals the pool occupancy and never exceeds the capacity; slots are
released exactly when a running worker finishes, and a cancelled waiting
worker never held one. -/
theorem concurrency_cap_invariant (m : Int) (acts : List Action) (s' : ClientState)
    (h : run (initState m) acts = some s') :
    countW runWeight s'.workers ≤ effectiveConcurrency m ∧
    countW runWeight s'.workers = s'.slotsUsed ∧
    s'.capacity = effectiveConcurrency m ∧
    (m ≤ 0 → effectiveConcurrency m = 10) ∧
    (∀ w ∈ s'.workers, w.executorInvoked = w.acquiredSlot) := by
  have hinv := inv_run (inv_init m) h
  have hcap := run_capacity h
  obtain ⟨h1, h2, _, _, _, hws⟩ := hinv
  have hc : s'.capacity = effectiveConcurrency m := by
    rw [hcap]
    rfl
  refine ⟨by omega, h1, hc, fun hm => by simp [effectiveConcurrency, hm], ?_⟩
  intro w hw
  exact (hws w hw).1

/-- Witness for C8: one submission and one slot acquisition on a
capacity-3 pool leave one executor call in flight, within the cap. -/
theorem concurrency_cap_invariant_witness :
    countW runWeight (((run (initState 3)
        [Action.submitSingle ⟨none, none⟩, Action.acquireSlot 0]).getD
      (initState 3)).workers) ≤ effectiveConcurrency 3 := by
  have hrun : run (initState 3) [Action.submitSingle ⟨none, none⟩, Action.acquireSlot 0]
      = some ⟨3, false, false, 1, 1,
          [⟨true, false, true, true, .running, ⟨none, none⟩, [], false⟩], []⟩ := by
    decide
  rw [hrun]
  exact (concurrency_cap_invariant 3 _ _ hrun).1

/-- C2 (counterexample): on a capacity-1 client, submit a batch of one
item, let its worker acquire the slot, then call Close: Close completes
(closeDone, pool released) while the batch worker is still running and
has delivered nothing — Close did not wait for the batch per-item worker,
because batch workers are not registered with ac.wg. -/
theorem close_returns_while_batch_worker_running :
    run (initState 1) [Action.submitBatch [⟨none, none⟩], Action.acquireSlot 0,
        Action.closeStart, Action.closeFinish]
      = some ⟨1, true, true, 1, 0,
          [⟨false, false, true, true, .running, ⟨none, none⟩, [], false⟩], []⟩ ∧
    Phase.running ≠ Phase.done := by
  decide

/-- C2 (amended): Close() blocks until every wg-registered task (the
single-call async submissions) has delivered its single result and only
then completes, releasing the pool; batch per-item workers are not
registered with ac.wg, so they are not waited for.  A second Close() on a
closed client returns success immediately without changing the state. -/
theorem close_drains_registered_workers (m : Int) (acts : List Action)
    (s' : ClientState) (h : run (initState m) acts = some s')
    (hdone : s'.closeDone = true) :
    s'.wgCount = 0 ∧
    (∀ w ∈ s'.workers, w.registered = true →
      w.phase = .done ∧ w.chanClosed = true ∧ w.delivered.length = 1) ∧
    step s' .closeStart = some s' := by
  have hinv := inv_run (inv_init m) h
  obtain ⟨_, _, hreg, hcd, hwg0, hws⟩ := hinv
  have hwg := hwg0 hdone
  refine ⟨hwg, ?_, ?_⟩
  · intro w hw hr
    have hcount : countW regWeight s'.workers = 0 := by rw [hreg, hwg]
    have hle := countW_mem_ge regWeight s'.workers w hw
    have hdonephase : w.phase = .done := by
      by_contra hnd
      have : regWeight w = 1 := by simp [regWeight, hr, hnd]
      omega
    obtain ⟨_, _, _, e4⟩ := hws w hw
    obtain ⟨hch, hdel⟩ := e4 hdonephase
    refine ⟨hdonephase, hch, ?_⟩
    rw [hdel]
    split <;> rfl
  · simp [step, hcd hdone]

/-- Witness for C2 (amended): a submitted task is cancelled and delivers,
then Close completes; the drained state has wgCount 0 and the registered
worker done with one delivered result. -/
theorem close_drains_registered_workers_witness :
    ((run (initState 2) [Action.submitSingle ⟨none, none⟩, Action.cancelCtx 0,
        Action.cancelBranch 0, Action.closeStart, Action.closeFinish]).getD
      (initState 2)).wgCount = 0 := by
  have hrun : run (initState 2) [Action.submitSingle ⟨none, none⟩, Action.cancelCtx 0,
        Action.cancelBranch 0, Action.closeStart, Action.closeFinish]
      = some ⟨2, true, true, 0, 0,
          [⟨true, true, false, false, .done, ⟨none, none⟩, [cancelResult], true⟩], []⟩ := by
    decide
  rw [hrun]
  exact (close_drains_registered_workers 2 _ _ hrun rfl).1

/-- C5: once Close has completed the closed flag is set, and a submission
on a closed client only appends a fast channel holding the single
closed-client error result (the channel is closed right after): no worker
is spawned, no slot acquired, the executor never invoked, and wg is
untouched. -/
theorem submit_after_close_fast_fail :
    (∀ (m : Int) (acts : List Action) (s' : ClientState),
      run (initState m) acts = some s' → s'.closeDone = true → s'.closed = true) ∧
    (∀ (s : ClientState) (o : ARes), s.closed = true →
      step s (.submitSingle o)
        = some { s with fastChannels := s.fastChannels ++ [[closedResult]] }) ∧
    closedResult = ⟨none, some (.xiangxinAI "async client is closed")⟩ := by
  refine ⟨?_, ?_, rfl⟩
  · intro m acts s' h hdone
    exact (inv_run (inv_init m) h).2.2.2.1 hdone
  · intro s o hc
    simp [step, hc]

/-- Witness for C5: submitting on a concretely closed client appends
exactly the one-element closed-error channel and changes nothing else. -/
theorem submit_after_close_fast_fail_witness :
    step ⟨10, true, false, 0, 0, [], []⟩ (Action.submitSingle ⟨none, none⟩)
      = some ⟨10, true, false, 0, 0, [], [[closedResult]]⟩ ∧
    ((run (initState 1) [Action.closeStart, Action.closeFinish]).getD
      (initState 1)).closed = true := by
  constructor
  · have h := submit_after_close_fast_fail.2.1 ⟨10, true, false, 0, 0, [], []⟩
      ⟨none, none⟩ rfl
    simpa using h
  · have hrun : run (initState 1) [Action.closeStart, Action.closeFinish]
        = some ⟨1, true, true, 0, 0, [], []⟩ := by
      decide
    rw [hrun]
    exact submit_after_close_fast_fail.1 1 _ _ hrun rfl

/-- C6 (counterexample): the select between acquiring a slot and context
cancellation chooses among ready cases arbitrarily, so a task whose
context is cancelled before it acquires a slot can still take the slot
branch when a slot is free: the executor is invoked and the channel
delivers the executor outcome, not a cancellation error. -/
theorem cancelled_task_may_still_invoke_executor :
    run (initState 1) [Action.submitSingle ⟨none, some (.network "boom")⟩,
        Action.cancelCtx 0, Action.acquireSlot 0, Action.finish 0]
      = some ⟨1, false, false, 0, 0,
          [⟨true, true, true, true, .done, ⟨none, some (.network "boom")⟩,
            [⟨none, some (.network "boom")⟩], true⟩], []⟩ ∧
    ¬[ARes.mk none (some (.network "boom"))] = [cancelResult] ∧
    true = true := by
  refine ⟨by decide, by decide, rfl⟩

/-- C6 (amended): a worker that completes without ever acquiring a slot
(the cancellation branch won the select race) delivers exactly one
cancellation-error result on its channel, which is then closed, and its
executor is never invoked; the cancellation branch is enabled only when
the task's context has been cancelled while it still waits. -/
theorem cancel_branch_no_executor (m : Int) (acts : List Action) (s' : ClientState)
    (h : run (initState m) acts = some s') :
    (∀ w ∈ s'.workers, w.phase = .done → w.acquiredSlot = false →
      w.delivered = [cancelResult] ∧ w.chanClosed = true ∧
      w.executorInvoked = false) ∧
    (∀ (s t : ClientState) (i : Nat), step s (.cancelBranch i) = some t →
      ∃ w, s.workers.get? i = some w ∧ w.ctxCancelled = true ∧
        w.phase = .waiting) := by
  have hinv := inv_run (inv_init m) h
  obtain ⟨_, _, _, _, _, hws⟩ := hinv
  constructor
  · intro w hw hdone hns
    obtain ⟨e1, _, _, e4⟩ := hws w hw
    obtain ⟨hch, hdel⟩ := e4 hdone
    rw [hns] at hdel
    refine ⟨by simpa using hdel, hch, ?_⟩
    rw [e1, hns]
  · intro s t i hstep
    simp only [step] at hstep
    split at hstep
    case h_1 w hw =>
      split at hstep
      case isTrue hcond => exact ⟨w, hw, hcond.2, hcond.1⟩
      case isFalse => exact absurd hstep (by simp)
    case h_2 => exact absurd hstep (by simp)

/-- Witness for C6 (amended): a worker completing through the
cancellation branch delivers exactly the cancellation error. -/
theorem cancel_branch_no_executor_witness :
    (((run (initState 1) [Action.submitSingle ⟨none, none⟩, Action.cancelCtx 0,
        Action.cancelBranch 0]).getD (initState 1)).workers.get? 0).map
      Worker.delivered = some [cancelResult] := by
  have hrun : run (initState 1) [Action.submitSingle ⟨none, none⟩, Action.cancelCtx 0,
        Action.cancelBranch 0]
      = some ⟨1, false, false, 0, 0,
          [⟨true, true, false, false, .done, ⟨none, none⟩, [cancelResult], true⟩], []⟩ := by
    decide
  have h := (cancel_branch_no_executor 1 _ _ hrun).1
    ⟨true, true, false, false, .done, ⟨none, none⟩, [cancelResult], true⟩
    (List.mem_singleton.mpr rfl) rfl rfl
  rw [hrun]
  show some (Worker.delivered
      ⟨true, true, false, false, .done, ⟨none, none⟩, [cancelResult], true⟩)
    = some [cancelResult]
  exact congrArg some h.1

end Xiangxinai
